import Mathlib

/-
Verification of the optpy compiler pipeline: the IR and its desugaring
(optpy-parser/src/statement.rs), the code generator
(optpy-generator/src/lib.rs), and the runtime object model
(optpy-std/src/object.rs), together with an executable semantics of the
code the generator emits.
-/

namespace Optpy

/-! ## Intermediate representation (optpy-parser)

Mirrors the `Statement` enum of `statement.rs` and the `Expr` enum of the
parser crate (the variants are those consumed by `format_expr` in the
generator). Numbers keep their source strings, as in the Rust `Number`
enum (`Number::Int(String)` / `Number::Float(String)`). -/

inductive Number where
  | int (s : String)
  | float (s : String)
  deriving DecidableEq, Repr

inductive BinaryOperator where
  | add | sub | mul | div | mod | floorDiv
  deriving DecidableEq, Repr

inductive CompareOperator where
  | less | lessOrEqual | greater | greaterOrEqual | equal | notEqual
  deriving DecidableEq, Repr

inductive BoolOperator where
  | andOp | orOp
  deriving DecidableEq, Repr

inductive UnaryOperator where
  | add | sub
  deriving DecidableEq, Repr

inductive Expr where
  | variableName (name : String)
  | constantNumber (n : Number)
  | constantString (s : String)
  | constantBoolean (b : Bool)
  | tuple (values : List Expr)
  | list (values : List Expr)
  | index (value : Expr) (idx : Expr)
  | callFunction (name : String) (args : List Expr)
  | callMethod (value : Expr) (name : String) (args : List Expr)
  | binaryOperation (left : Expr) (right : Expr) (op : BinaryOperator)
  | compare (left : Expr) (right : Expr) (op : CompareOperator)
  | boolOperation (op : BoolOperator) (conditions : List Expr)
  | unaryOperation (value : Expr) (op : UnaryOperator)

inductive Statement where
  | assign (target : Expr) (value : Expr)
  | expression (e : Expr)
  | ifStmt (test : Expr) (body : List Statement) (orelse : List Statement)
  | func (name : String) (args : List String) (body : List Statement)
  | ret (value : Option Expr)
  | whileStmt (test : Expr) (body : List Statement)
  | breakStmt

/-! ## Decimal rendering

The desugaring builds identifiers with `format!("{}", n)` on `usize`
positions and `i.to_string()` on enumeration indices; both render in
decimal. `natToString` is that decimal rendering. -/

def digitChar (d : Nat) : Char := Char.ofNat (48 + d)

def natChars (n : Nat) : List Char :=
  if n < 10 then [digitChar n]
  else natChars (n / 10) ++ [digitChar (n % 10)]
  termination_by n
  decreasing_by
    exact Nat.div_lt_self (by omega) (by omega)

def natToString (n : Nat) : String := ⟨natChars n⟩

/-! ## Decimal parsing

Model of Rust's `str::parse::<i64>()` as used by `format_number`
(`optpy-generator/src/lib.rs`): an optional sign, one or more decimal
digits, and a signed-64-bit range check; anything else fails. -/

def digitVal (c : Char) : Option Nat :=
  if 48 ≤ c.toNat ∧ c.toNat ≤ 57 then some (c.toNat - 48) else none

def parseNatChars (cs : List Char) : Option Nat :=
  match cs with
  | [] => none
  | _ => go cs 0
where
  go : List Char → Nat → Option Nat
    | [], acc => some acc
    | c :: rest, acc =>
      match digitVal c with
      | some d => go rest (10 * acc + d)
      | none => none

def parseI64 (s : String) : Option Int :=
  let magnitude : Option Int :=
    match s.data with
    | '+' :: rest => (parseNatChars rest).map Int.ofNat
    | '-' :: rest => (parseNatChars rest).map fun n => -(n : Int)
    | cs => (parseNatChars cs).map Int.ofNat
  match magnitude with
  | some v => if -(2 ^ 63) ≤ v ∧ v ≤ 2 ^ 63 - 1 then some v else none
  | none => none

/-! ## Raw syntax tree (front-end shapes)

Minimal mirror of the rustpython node shapes consumed by
`Statement::parse` and `parse_assignment`. Expression nodes carry a
source location where the desugaring reads one (`iter.location`). -/

structure Location where
  row : Nat
  col : Nat
  deriving DecidableEq, Repr

inductive RawExpr where
  | ident (s : String)
  | tuple (elems : List RawExpr)
  | num (s : String)
  | strLit (s : String)
  | indexR (value : RawExpr) (idx : RawExpr)
  | callR (name : String) (args : List RawExpr)
  | methodR (value : RawExpr) (name : String) (args : List RawExpr)

/-- Located expression node: rustpython expressions carry a `location`
and a `node`; the `For` arm reads `iter.location.row()` and
`iter.location.column()`. -/
structure LocatedExpr where
  location : Location
  node : RawExpr

/-- Modelled from the spec: `Expr::parse`, the front-end expression
lowering, lives in the parser crate's expression module, which is not
under src/. Section 3 of the spec gives the target tagged union
(`VariableName`, `Tuple(items)`, `ConstantNumber`, `ConstantString`,
`Index`, `CallFunction`); each raw node maps to the like-named IR
variant. -/
def Expr.parse : RawExpr → Expr
  | .ident s => .variableName s
  | .tuple es => .tuple (es.attach.map fun x => Expr.parse x.1)
  | .num s => .constantNumber (.int s)
  | .strLit s => .constantString s
  | .indexR v i => .index (Expr.parse v) (Expr.parse i)
  | .callR n args => .callFunction n (args.attach.map fun x => Expr.parse x.1)
  | .methodR v n args =>
    .callMethod (Expr.parse v) n (args.attach.map fun x => Expr.parse x.1)
  termination_by e => sizeOf e
  decreasing_by
    all_goals simp_wf
    all_goals first
      | omega
      | (have h := List.sizeOf_lt_of_mem x.2; omega)

/-- Temporary name for a desugared `for` loop, from `statement.rs`:
`format!("__tmp_variable_for_for_loop_{}_{}", iter.location.row(), iter.location.column())`. -/
def tmpVariableForForLoop (loc : Location) : String :=
  "__tmp_variable_for_for_loop_" ++ natToString loc.row ++ "_" ++ natToString loc.col

inductive RawStatement where
  | assign (targets : List RawExpr) (value : RawExpr)
  | expression (e : RawExpr)
  | forStmt (target : RawExpr) (iter : LocatedExpr) (body : List RawStatement)
  | augAssign (target : RawExpr) (op : BinaryOperator) (value : RawExpr)
  | breakStmt

/-- Tuple-target assignment desugaring, `parse_assignment` in
`statement.rs`: a tuple target becomes `__tmp_for_tuple = value` followed
by one indexed assignment per element (index rendered with
`i.to_string()`); any other target becomes a single `Assign`. -/
def parse_assignment (target : RawExpr) (value : Expr) : List Statement :=
  match target with
  | .tuple elems =>
    Statement.assign (.variableName "__tmp_for_tuple") value ::
      (elems.enum.map fun (i, element) =>
        Statement.assign (Expr.parse element)
          (.index (.variableName "__tmp_for_tuple") (.constantNumber (.int (natToString i)))))
  | t => [Statement.assign (Expr.parse t) value]

mutual

/-- Statement lowering, `Statement::parse` in `statement.rs`. The `For`
arm desugars to the three-statement materialize/reverse/pop form; the
`AugAssign` arm duplicates the target into `target = target op value`;
the `Assign` arm asserts a single target (the source `assert_eq!`
becomes an error here). -/
def Statement.parse (statement : RawStatement) : Except String (List Statement) :=
  match statement with
  | .assign targets value =>
    match targets with
    | [target] => .ok (parse_assignment target (Expr.parse value))
    | _ => .error "assertion failed: targets.len() == 1"
  | .expression e => .ok [Statement.expression (Expr.parse e)]
  | .forStmt target iter body => do
    let tmp := tmpVariableForForLoop iter.location
    let iterExpr := Expr.parse iter.node
    let bodyStmts ← parse_statements body
    let whileBody :=
      parse_assignment target
        (.callMethod (.variableName tmp) "pop" []) ++ bodyStmts
    .ok [
      Statement.assign (.variableName tmp) (.callFunction "list" [iterExpr]),
      Statement.expression (.callMethod (.variableName tmp) "reverse" []),
      Statement.whileStmt
        (.boolOperation .andOp [
          .compare (.callFunction "len" [.variableName tmp])
            (.constantNumber (.int "0")) .greater])
        whileBody]
  | .augAssign target op value =>
    let t := Expr.parse target
    .ok [Statement.assign t (.binaryOperation t (Expr.parse value) op)]
  | .breakStmt => .ok [Statement.breakStmt]

/-- List lowering, `parse_statements` in `statement.rs`: parse each raw
statement and concatenate the results. -/
def parse_statements (statements : List RawStatement) : Except String (List Statement) :=
  match statements with
  | [] => .ok []
  | s :: rest => do
    let first ← Statement.parse s
    let more ← parse_statements rest
    .ok (first ++ more)

end

/-! ## Runtime value model and execution semantics

Executable semantics of the code the generator emits, linked against the
runtime value model. A `Value` mirrors the runtime's dynamic value
(`None`, 64-bit integer, boolean, string, list); a list value is a
handle (`addr` into `Heap.lists`) to a shared vector of element cells
(`addr`s into `Heap.cells`), mirroring
`Value::List(Rc<UnsafeRefCell<Vec<Rc<UnsafeRefCell<Value>>>>>)`.
Variables are the generated `let mut x = ...` locals, modelled as an
association list. Integer literals are gate-checked against the i64
range at compile time (`format_number`); runtime arithmetic is modelled
on unbounded integers since no claim exercises overflow. Floats are not
modelled (no claim mentions them). The `out` field logs the values
printed by the `print` built-in, the one observable side channel. -/

inductive Value where
  | nil
  | int (n : Int)
  | bool (b : Bool)
  | str (s : String)
  | list (addr : Nat)
  deriving DecidableEq, Repr

structure Heap where
  cells : List Value
  lists : List (List Nat)
  deriving DecidableEq, Repr

def Heap.getCell (h : Heap) (a : Nat) : Value := h.cells.getD a .nil

def Heap.setCell (h : Heap) (a : Nat) (v : Value) : Heap :=
  { h with cells := h.cells.set a v }

def Heap.getList (h : Heap) (a : Nat) : List Nat := h.lists.getD a []

def Heap.setList (h : Heap) (a : Nat) (l : List Nat) : Heap :=
  { h with lists := h.lists.set a l }

def Heap.allocCell (h : Heap) (v : Value) : Heap × Nat :=
  ({ h with cells := h.cells ++ [v] }, h.cells.length)

def Heap.allocList (h : Heap) (l : List Nat) : Heap × Nat :=
  ({ h with lists := h.lists ++ [l] }, h.lists.length)

/-- Shallow copy, `Value::__shallow_copy` per §4.4 of the spec: scalars
are returned as-is; a list gets a fresh outer container holding the same
element cells, so nested cells stay shared with the original. -/
def shallowCopy (h : Heap) (v : Value) : Heap × Value :=
  match v with
  | .list a =>
    let (h', na) := h.allocList (h.getList a)
    (h', .list na)
  | v => (h, v)

/-- Truthiness, `test()` per §4.4 of the spec: booleans are themselves,
numbers are truthy iff nonzero, strings and lists iff non-empty, none is
falsy. -/
def truthy (h : Heap) (v : Value) : Bool :=
  match v with
  | .nil => false
  | .bool b => b
  | .int n => n != 0
  | .str s => s.length != 0
  | .list a => (h.getList a).length != 0

/-- Element storage for a list literal: the generator emits
`Value::from(vec![Value::from(&e), ...])`, so each element value is
shallow-copied (`From<&Value>` is `__shallow_copy`) and placed in a
fresh element cell. Returns the new cell addresses in order. -/
def allocElems (h : Heap) (vs : List Value) : Heap × List Nat :=
  match vs with
  | [] => (h, [])
  | v :: rest =>
    let (h1, v') := shallowCopy h v
    let (h2, c) := h1.allocCell v'
    let (h3, cs) := allocElems h2 rest
    (h3, c :: cs)

/-- Argument copies for a user-defined call: the emitted callee begins
with `let mut p = p.__shallow_copy();` for each parameter, so each
argument value is shallow-copied in order. -/
def copyArgs (h : Heap) (vs : List Value) : Heap × List Value :=
  match vs with
  | [] => (h, [])
  | v :: rest =>
    let (h1, v') := shallowCopy h v
    let (h2, vs') := copyArgs h1 rest
    (h2, v' :: vs')

/-- Scalar arithmetic dispatch per §4.4: defined per concrete value
pair, mismatches are a type fault (`none`). True division is omitted
(float result, unmodelled); `Mod`/`FloorDiv` use the floor conventions
of the source language. -/
def Value.binop (op : BinaryOperator) (l r : Value) : Option Value :=
  match op, l, r with
  | .add, .int a, .int b => some (.int (a + b))
  | .sub, .int a, .int b => some (.int (a - b))
  | .mul, .int a, .int b => some (.int (a * b))
  | .mod, .int a, .int b => if b = 0 then none else some (.int (a.emod b))
  | .floorDiv, .int a, .int b => if b = 0 then none else some (.int (a.fdiv b))
  | .add, .str a, .str b => some (.str (a ++ b))
  | _, _, _ => none

/-- Scalar comparison dispatch per §4.4. Ordered comparisons are defined
on integers and strings; equality additionally across scalar kinds
(distinct kinds compare unequal). Lists are not compared (their contents
live behind the heap). -/
def Value.comp (op : CompareOperator) (l r : Value) : Option Value :=
  match op, l, r with
  | .less, .int a, .int b => some (.bool (a < b))
  | .lessOrEqual, .int a, .int b => some (.bool (a ≤ b))
  | .greater, .int a, .int b => some (.bool (a > b))
  | .greaterOrEqual, .int a, .int b => some (.bool (a ≥ b))
  | .less, .str a, .str b => some (.bool (a < b))
  | .greater, .str a, .str b => some (.bool (b < a))
  | .equal, l, r =>
    match l, r with
    | .list _, _ => none
    | _, .list _ => none
    | l, r => some (.bool (l = r))
  | .notEqual, l, r =>
    match l, r with
    | .list _, _ => none
    | _, .list _ => none
    | l, r => some (.bool (l ≠ r))
  | _, _, _ => none

def Value.unop (op : UnaryOperator) (v : Value) : Option Value :=
  match op, v with
  | .add, .int a => some (.int a)
  | .sub, .int a => some (.int (-a))
  | _, _ => none

structure St where
  env : List (String × Value)
  heap : Heap
  out : List Value
  deriving DecidableEq, Repr

def updateAssoc (env : List (String × Value)) (x : String) (v : Value) :
    List (String × Value) :=
  match env with
  | [] => [(x, v)]
  | (k, w) :: rest =>
    if k = x then (k, v) :: rest else (k, w) :: updateAssoc rest x v

/-- Variable rebinding: `x.assign(&v)` on a plain-name target overwrites
that one binding's content with a handle-copy of `v` (§4.4); other
handles to the same containers stay shared. -/
def St.setVar (st : St) (x : String) (v : Value) : St :=
  { st with env := updateAssoc st.env x v }

def St.lookupVar (st : St) (x : String) : Option Value :=
  st.env.lookup x

inductive RErr where
  | fuelOut
  | nameError
  | typeError
  | indexError
  | unsupported
  | internal
  deriving DecidableEq, Repr

inductive Flow where
  | next
  | brk
  | ret (v : Value)
  deriving DecidableEq, Repr

/-- User-defined functions in scope: name, parameters, IR body. -/
def Funcs := List (String × (List String × List Statement))

inductive Code where
  | expr (e : Expr)
  | exprList (es : List Expr)
  | conds (op : BoolOperator) (cs : List Expr)
  | stmt (s : Statement)
  | stmtList (ss : List Statement)

inductive Res where
  | val (v : Value)
  | vals (vs : List Value)
  | flow (f : Flow)
  deriving DecidableEq, Repr

def asVal (r : St × Res) : Except RErr (St × Value) :=
  match r with
  | (st, .val v) => .ok (st, v)
  | _ => .error .internal

def asVals (r : St × Res) : Except RErr (St × List Value) :=
  match r with
  | (st, .vals vs) => .ok (st, vs)
  | _ => .error .internal

def asFlow (r : St × Res) : Except RErr (St × Flow) :=
  match r with
  | (st, .flow f) => .ok (st, f)
  | _ => .error .internal

/-- Execution of generated code. Each `Code` alternative is the
semantics of the Rust text the generator emits for that IR form:

* `Assign` runs `target.assign(&value)` — a plain name rebinds one
  binding, an index target writes through `index` into the shared
  element cell; an assign whose target is any other expression operates
  on a transient and is not modelled (`unsupported`).
* `If`/`While` wrap the condition in `.test()`; `While` loops, handling
  `break` and `return` flows.
* A call of `name` emits `name(&a1, &a2, ...)`: built-ins (`print`
  via its macro name, `list`, `len`) run directly; a user-defined call
  evaluates arguments left to right, then the callee shallow-copies each
  argument into its parameter bindings, runs its body, and falls back to
  the trailing `return Value::none()` when the body finishes without
  returning.
* `Return(Some e)` emits `return Value::from(e)`, a shallow copy.
* `BoolOperation` emits `Value::from(c1.test() && c2.test() && ...)`
  (or `||`), whose operands evaluate lazily left to right.
* Method calls `append`/`pop`/`reverse` mutate the shared list storage.

Fuel decreases on every recursive call, so execution is total; `fuelOut`
marks exhaustion. -/
def interp : Nat → Funcs → St → Code → Except RErr (St × Res)
  | 0, _, _, _ => .error .fuelOut
  | Nat.succ fuel, fns, st, code =>
    match code with
    | .expr e =>
      match e with
      | .variableName x =>
        match st.lookupVar x with
        | some v => .ok (st, .val v)
        | none => .error .nameError
      | .constantNumber (.int s) =>
        match parseI64 s with
        | some n => .ok (st, .val (.int n))
        | none => .error .unsupported
      | .constantNumber (.float _) => .error .unsupported
      | .constantString s => .ok (st, .val (.str s))
      | .constantBoolean b => .ok (st, .val (.bool b))
      | .list es => do
        let (st1, vs) ← interp fuel fns st (.exprList es) >>= asVals
        let (h1, cellAddrs) := allocElems st1.heap vs
        let (h2, la) := h1.allocList cellAddrs
        .ok ({ st1 with heap := h2 }, .val (.list la))
      | .tuple es => do
        let (st1, vs) ← interp fuel fns st (.exprList es) >>= asVals
        let (h1, cellAddrs) := allocElems st1.heap vs
        let (h2, la) := h1.allocList cellAddrs
        .ok ({ st1 with heap := h2 }, .val (.list la))
      | .index ve ie => do
        let (st1, base) ← interp fuel fns st (.expr ve) >>= asVal
        let (st2, iv) ← interp fuel fns st1 (.expr ie) >>= asVal
        match base, iv with
        | .list a, .int n =>
          let addrs := st2.heap.getList a
          if 0 ≤ n ∧ n.toNat < addrs.length then
            .ok (st2, .val (st2.heap.getCell (addrs.getD n.toNat 0)))
          else .error .indexError
        | _, _ => .error .typeError
      | .callFunction name args =>
        if name = "print__macro__" then do
          let (st1, vs) ← interp fuel fns st (.exprList args) >>= asVals
          .ok ({ st1 with out := st1.out ++ vs }, .val .nil)
        else if name = "list" then do
          let (st1, vs) ← interp fuel fns st (.exprList args) >>= asVals
          match vs with
          | [.list a] =>
            let (h1, v') := shallowCopy st1.heap (.list a)
            .ok ({ st1 with heap := h1 }, .val v')
          | _ => .error .typeError
        else if name = "len" then do
          let (st1, vs) ← interp fuel fns st (.exprList args) >>= asVals
          match vs with
          | [.list a] => .ok (st1, .val (.int (st1.heap.getList a).length))
          | [.str s] => .ok (st1, .val (.int s.length))
          | _ => .error .typeError
        else
          match fns.lookup name with
          | none => .error .nameError
          | some (params, body) => do
            let (st1, vs) ← interp fuel fns st (.exprList args) >>= asVals
            if params.length = vs.length then do
              let (h1, copied) := copyArgs st1.heap vs
              let calleeSt : St := ⟨params.zip copied, h1, st1.out⟩
              let (st2, flow) ← interp fuel fns calleeSt (.stmtList body) >>= asFlow
              let result :=
                match flow with
                | .ret v => some v
                | .next => some .nil
                | .brk => none
              match result with
              | some v => .ok (⟨st1.env, st2.heap, st2.out⟩, .val v)
              | none => .error .unsupported
            else .error .typeError
      | .callMethod ve name args => do
        let (st1, rv) ← interp fuel fns st (.expr ve) >>= asVal
        let (st2, vs) ← interp fuel fns st1 (.exprList args) >>= asVals
        match name, rv, vs with
        | "append", .list a, [x] =>
          let (h1, c) := st2.heap.allocCell x
          let h2 := h1.setList a (h1.getList a ++ [c])
          .ok ({ st2 with heap := h2 }, .val .nil)
        | "pop", .list a, [] =>
          match (st2.heap.getList a).getLast? with
          | some c =>
            let h1 := st2.heap.setList a (st2.heap.getList a).dropLast
            .ok ({ st2 with heap := h1 }, .val (st2.heap.getCell c))
          | none => .error .indexError
        | "reverse", .list a, [] =>
          let h1 := st2.heap.setList a (st2.heap.getList a).reverse
          .ok ({ st2 with heap := h1 }, .val .nil)
        | _, _, _ => .error .unsupported
      | .binaryOperation l r op => do
        let (st1, lv) ← interp fuel fns st (.expr l) >>= asVal
        let (st2, rv) ← interp fuel fns st1 (.expr r) >>= asVal
        match Value.binop op lv rv with
        | some v => .ok (st2, .val v)
        | none => .error .typeError
      | .compare l r op => do
        let (st1, lv) ← interp fuel fns st (.expr l) >>= asVal
        let (st2, rv) ← interp fuel fns st1 (.expr r) >>= asVal
        match Value.comp op lv rv with
        | some v => .ok (st2, .val v)
        | none => .error .typeError
      | .unaryOperation v op => do
        let (st1, vv) ← interp fuel fns st (.expr v) >>= asVal
        match Value.unop op vv with
        | some v => .ok (st1, .val v)
        | none => .error .typeError
      | .boolOperation op conditions =>
        interp fuel fns st (.conds op conditions)
    | .exprList es =>
      match es with
      | [] => .ok (st, .vals [])
      | e :: rest => do
        let (st1, v) ← interp fuel fns st (.expr e) >>= asVal
        let (st2, vs) ← interp fuel fns st1 (.exprList rest) >>= asVals
        .ok (st2, .vals (v :: vs))
    | .conds op cs =>
      match cs with
      | [] =>
        .ok (st, .val (.bool (match op with | .andOp => true | .orOp => false)))
      | c :: rest => do
        let (st1, v) ← interp fuel fns st (.expr c) >>= asVal
        let b := truthy st1.heap v
        match op with
        | .andOp =>
          if b then interp fuel fns st1 (.conds op rest)
          else .ok (st1, .val (.bool false))
        | .orOp =>
          if b then .ok (st1, .val (.bool true))
          else interp fuel fns st1 (.conds op rest)
    | .stmt s =>
      match s with
      | .assign target value =>
        match target with
        | .variableName x => do
          let (st1, v) ← interp fuel fns st (.expr value) >>= asVal
          .ok (st1.setVar x v, .flow .next)
        | .index ve ie => do
          let (st1, base) ← interp fuel fns st (.expr ve) >>= asVal
          let (st2, iv) ← interp fuel fns st1 (.expr ie) >>= asVal
          match base, iv with
          | .list a, .int n =>
            let addrs := st2.heap.getList a
            if 0 ≤ n ∧ n.toNat < addrs.length then do
              let (st3, v) ← interp fuel fns st2 (.expr value) >>= asVal
              let h1 := st3.heap.setCell (addrs.getD n.toNat 0) v
              .ok ({ st3 with heap := h1 }, .flow .next)
            else .error .indexError
          | _, _ => .error .typeError
        | _ => .error .unsupported
      | .expression e => do
        let (st1, _) ← interp fuel fns st (.expr e) >>= asVal
        .ok (st1, .flow .next)
      | .ifStmt test body orelse => do
        let (st1, tv) ← interp fuel fns st (.expr test) >>= asVal
        if truthy st1.heap tv then interp fuel fns st1 (.stmtList body)
        else interp fuel fns st1 (.stmtList orelse)
      | .func _ _ _ => .ok (st, .flow .next)
      | .ret none => .ok (st, .flow (.ret .nil))
      | .ret (some e) => do
        let (st1, v) ← interp fuel fns st (.expr e) >>= asVal
        let (h1, v') := shallowCopy st1.heap v
        .ok ({ st1 with heap := h1 }, .flow (.ret v'))
      | .whileStmt test body => do
        let (st1, tv) ← interp fuel fns st (.expr test) >>= asVal
        if truthy st1.heap tv then do
          let (st2, flow) ← interp fuel fns st1 (.stmtList body) >>= asFlow
          match flow with
          | .brk => .ok (st2, .flow .next)
          | .ret v => .ok (st2, .flow (.ret v))
          | .next => interp fuel fns st2 (.stmt (.whileStmt test body))
        else .ok (st1, .flow .next)
      | .breakStmt => .ok (st, .flow .brk)
    | .stmtList ss =>
      match ss with
      | [] => .ok (st, .flow .next)
      | s :: rest => do
        let (st1, flow) ← interp fuel fns st (.stmt s) >>= asFlow
        match flow with
        | .next => interp fuel fns st1 (.stmtList rest)
        | f => .ok (st1, .flow f)

/-- Expression evaluation entry point. -/
def evalExpr (fuel : Nat) (fns : Funcs) (st : St) (e : Expr) :
    Except RErr (St × Value) :=
  interp fuel fns st (.expr e) >>= asVal

/-- Statement-list execution entry point. -/
def execStmts (fuel : Nat) (fns : Funcs) (st : St) (ss : List Statement) :
    Except RErr (St × Flow) :=
  interp fuel fns st (.stmtList ss) >>= asFlow

/-! ## Code generator (optpy-generator/src/lib.rs)

The generator walks the IR and the definition map and emits Rust source
as a `proc_macro2::TokenStream`; a `TokenStream` is modelled as a
`List Tok`. Braces get their own constructors; every other token is a
`Tok.t`. The `BTreeMap`/`BTreeSet` definition tables are modelled by
association lists whose key lists and name sets are kept in the maps'
ascending iteration order. -/

inductive Tok where
  | t (s : String)
  | ob
  | cb
  deriving DecidableEq, Repr

/-- Definition map: scope name to the scope's definition set, the
`BTreeMap<String, BTreeSet<String>>` of `generate_code`. The per-scope
name list stands for the `BTreeSet`, listed in its ascending (that is,
lexicographic) iteration order. -/
def Defs := List (String × List String)

/-- Operator table `format_binary_ident`. -/
def format_binary_ident (op : BinaryOperator) : String :=
  match op with
  | .add => "__add"
  | .sub => "__sub"
  | .mul => "__mul"
  | .div => "__div"
  | .mod => "__rem"
  | .floorDiv => "__floor_div"

/-- Operator table `format_compare_ident`. -/
def format_compare_ident (op : CompareOperator) : String :=
  match op with
  | .less => "__lt"
  | .lessOrEqual => "__le"
  | .greater => "__gt"
  | .greaterOrEqual => "__ge"
  | .equal => "__eq"
  | .notEqual => "__ne"

/-- Operator table `format_unary_ident`. -/
def format_unary_ident (op : UnaryOperator) : String :=
  match op with
  | .add => "__unary_add"
  | .sub => "__unary_sub"

/-- Operator table `format_boolean_operation`. -/
def format_boolean_operation (op : BoolOperator) : String :=
  match op with
  | .andOp => "&&"
  | .orOp => "||"

/-- Decimal rendering of a parsed i64, as `quote!` prints the literal. -/
def intToString (v : Int) : String :=
  if v < 0 then "-" ++ natToString v.natAbs else natToString v.natAbs

/-- Numeric literal emission, `format_number`: an integer literal outside
the i64 range is the fatal `bigint is not supported` abort. A float
literal is emitted verbatim here; the source's f64 parse-failure abort is
not modelled (no claim involves float literals). -/
def format_number (number : Number) : Except String (List Tok) :=
  match number with
  | .int s =>
    match parseI64 s with
    | some v => .ok [.t "Value", .t "::", .t "from", .t "(", .t (intToString v), .t ")"]
    | none => .error "bigint is not supported"
  | .float s => .ok [.t "Value", .t "::", .t "from", .t "(", .t s, .t ")"]

/-- Suffix stripping over character lists, the `str::strip_suffix`
used by the call arm of `format_expr`. -/
def stripSuffixChars (l suf : List Char) : Option (List Char) :=
  let n := l.length - suf.length
  if l.length ≥ suf.length ∧ l.drop n = suf then some (l.take n) else none

/-- The `name.strip_suffix("__macro__")` test of call emission. -/
def stripMacroSuffix (name : String) : Option String :=
  (stripSuffixChars name.data "__macro__".data).map fun l => ⟨l⟩

/-- Comma-separated splice `#(...),*`. -/
def commaJoin (xs : List (List Tok)) : List Tok :=
  match xs with
  | [] => []
  | [x] => x
  | x :: rest => x ++ [Tok.t ","] ++ commaJoin rest

/-- Argument splice `#(&#args),*` of call emission: each argument is
passed by reference, with no copying at the call site. -/
def callArgs (argToks : List (List Tok)) : List Tok :=
  commaJoin (argToks.map fun a => Tok.t "&" :: a)

/-- Call-site emission for a user-defined function: `name(&a1, &a2, ...)`. -/
def callSite (name : String) (argToks : List (List Tok)) : List Tok :=
  Tok.t name :: Tok.t "(" :: callArgs argToks ++ [Tok.t ")"]

/-- Pre-declaration `let mut name = Value::none();` emitted by
`generate_function_body` for each name of the scope's definition set. -/
def declTok (name : String) : List Tok :=
  [.t "let", .t "mut", .t name, .t "=", .t "Value", .t "::", .t "none",
   .t "(", .t ")", .t ";"]

/-- Callee prologue `let mut arg = arg.__shallow_copy();` emitted by the
`Statement::Func` arm for each parameter. -/
def shallowCopyToks (arg : String) : List Tok :=
  [.t "let", .t "mut", .t arg, .t "=", .t arg, .t ".", .t "__shallow_copy",
   .t "(", .t ")", .t ";"]

/-- Trailing `return Value::none();` of every emitted function body. -/
def returnNoneToks : List Tok :=
  [.t "return", .t "Value", .t "::", .t "none", .t "(", .t ")", .t ";"]

/-- Pre-declarations of a scope, in the definition set's iteration
order. -/
def declarations (function_name : String) (definitions : Defs) : List Tok :=
  match definitions.lookup function_name with
  | some names => names.flatMap declTok
  | none => []

inductive FIn where
  | e (x : Expr)
  | es (xs : List Expr)
  | s (x : Statement)
  | ss (xs : List Statement)
  | fbody (body : List Statement) (function_name : String)

inductive FRes where
  | toks (ts : List Tok)
  | tokss (ts : List (List Tok))
  deriving DecidableEq, Repr

def asToks (r : FRes) : Except String (List Tok) :=
  match r with
  | .toks ts => .ok ts
  | _ => .error "internal"

def asTokss (r : FRes) : Except String (List (List Tok)) :=
  match r with
  | .tokss ts => .ok ts
  | _ => .error "internal"

/-- Token emission, covering `format_expr`, `format_exprs`,
`format_statement` and `generate_function_body` of
`optpy-generator/src/lib.rs`, one `FIn` alternative per function
(`FIn.es` is `format_exprs`, returning one token list per expression;
`FIn.ss` concatenates formatted statements as the `#(#body);*` splices
do; `FIn.fbody` is `generate_function_body`: the scope's
pre-declarations followed by the formatted statements). Emission per
arm follows the corresponding `quote!` template. Fuel decreases on
every recursive call; the depth of any program is finite, so a
sufficiently fuelled run never sees the `"fuel"` error. -/
def fmt (definitions : Defs) : Nat → FIn → Except String FRes
  | 0, _ => .error "fuel"
  | Nat.succ fuel, inp =>
    match inp with
    | .e expr =>
      match expr with
      | .callFunction name args => do
        let argToks ← fmt definitions fuel (.es args) >>= asTokss
        match stripMacroSuffix name with
        | some macroName =>
          .ok (.toks (Tok.t macroName :: Tok.t "!" :: Tok.t "(" ::
            callArgs argToks ++ [Tok.t ")"]))
        | none =>
          .ok (.toks (callSite name argToks))
      | .callMethod value name args => do
        let valueToks ← fmt definitions fuel (.e value) >>= asToks
        let argToks ← fmt definitions fuel (.es args) >>= asTokss
        .ok (.toks (valueToks ++ [Tok.t ".", Tok.t name, Tok.t "("] ++
          callArgs argToks ++ [Tok.t ")"]))
      | .tuple values => do
        let valueToks ← fmt definitions fuel (.es values) >>= asTokss
        .ok (.toks ([Tok.t "Value", Tok.t "::", Tok.t "from", Tok.t "(",
          Tok.t "&", Tok.t "["] ++ commaJoin valueToks ++ [Tok.t "]", Tok.t ")"]))
      | .variableName name => .ok (.toks [Tok.t name])
      | .boolOperation op conditions => do
        let condToks ← fmt definitions fuel (.es conditions) >>= asTokss
        let opTok := Tok.t (format_boolean_operation op)
        let chain :=
          match condToks.map (fun c => c ++ [Tok.t ".", Tok.t "test", Tok.t "(", Tok.t ")"]) with
          | [] => []
          | c :: rest => c ++ rest.flatMap (fun cc => opTok :: cc)
        .ok (.toks ([Tok.t "Value", Tok.t "::", Tok.t "from", Tok.t "("] ++
          chain ++ [Tok.t ")"]))
      | .compare left right op => do
        let leftToks ← fmt definitions fuel (.e left) >>= asToks
        let rightToks ← fmt definitions fuel (.e right) >>= asToks
        .ok (.toks (leftToks ++ [Tok.t ".", Tok.t (format_compare_ident op), Tok.t "(",
          Tok.t "&"] ++ rightToks ++ [Tok.t ")"]))
      | .binaryOperation left right op => do
        let leftToks ← fmt definitions fuel (.e left) >>= asToks
        let rightToks ← fmt definitions fuel (.e right) >>= asToks
        .ok (.toks (leftToks ++ [Tok.t ".", Tok.t (format_binary_ident op), Tok.t "(",
          Tok.t "&"] ++ rightToks ++ [Tok.t ")"]))
      | .constantNumber number => do
        let ts ← format_number number
        .ok (.toks ts)
      | .index value idx => do
        let valueToks ← fmt definitions fuel (.e value) >>= asToks
        let idxToks ← fmt definitions fuel (.e idx) >>= asToks
        .ok (.toks (valueToks ++ [Tok.t ".", Tok.t "index", Tok.t "(", Tok.t "&"] ++
          idxToks ++ [Tok.t ")"]))
      | .list values => do
        let valueToks ← fmt definitions fuel (.es values) >>= asTokss
        let wrapped := valueToks.map fun v =>
          [Tok.t "Value", Tok.t "::", Tok.t "from", Tok.t "(", Tok.t "&"] ++ v ++ [Tok.t ")"]
        .ok (.toks ([Tok.t "Value", Tok.t "::", Tok.t "from", Tok.t "(",
          Tok.t "vec!", Tok.t "["] ++ commaJoin wrapped ++ [Tok.t "]", Tok.t ")"]))
      | .constantString value =>
        .ok (.toks [Tok.t "Value", Tok.t "::", Tok.t "from", Tok.t "(",
          Tok.t value, Tok.t ")"])
      | .constantBoolean b =>
        .ok (.toks [Tok.t "Value", Tok.t "::", Tok.t "from", Tok.t "(",
          Tok.t (if b then "true" else "false"), Tok.t ")"])
      | .unaryOperation value op => do
        let valueToks ← fmt definitions fuel (.e value) >>= asToks
        .ok (.toks (valueToks ++ [Tok.t ".", Tok.t (format_unary_ident op),
          Tok.t "(", Tok.t ")"]))
    | .es xs =>
      match xs with
      | [] => .ok (.tokss [])
      | x :: rest => do
        let first ← fmt definitions fuel (.e x) >>= asToks
        let more ← fmt definitions fuel (.es rest) >>= asTokss
        .ok (.tokss (first :: more))
    | .s stmt =>
      match stmt with
      | .assign target value => do
        let targetToks ← fmt definitions fuel (.e target) >>= asToks
        let valueToks ← fmt definitions fuel (.e value) >>= asToks
        .ok (.toks (targetToks ++ [Tok.t ".", Tok.t "assign", Tok.t "(", Tok.t "&"] ++
          valueToks ++ [Tok.t ")", Tok.t ";"]))
      | .expression e => do
        let ts ← fmt definitions fuel (.e e) >>= asToks
        .ok (.toks (ts ++ [Tok.t ";"]))
      | .ifStmt test body orelse => do
        let testToks ← fmt definitions fuel (.e test) >>= asToks
        let bodyToks ← fmt definitions fuel (.ss body) >>= asToks
        let orelseToks ← fmt definitions fuel (.ss orelse) >>= asToks
        .ok (.toks ([Tok.t "if", Tok.t "("] ++ testToks ++
          [Tok.t ")", Tok.t ".", Tok.t "test", Tok.t "(", Tok.t ")", Tok.ob] ++
          bodyToks ++ [Tok.cb, Tok.t "else", Tok.ob] ++ orelseToks ++ [Tok.cb]))
      | .func name args body => do
        let bodyToks ← fmt definitions fuel (.fbody body name) >>= asToks
        .ok (.toks ([Tok.t "fn", Tok.t name, Tok.t "("] ++
          commaJoin (args.map fun a => [Tok.t a, Tok.t ":", Tok.t "&", Tok.t "Value"]) ++
          [Tok.t ")", Tok.t "->", Tok.t "Value", Tok.ob] ++
          args.flatMap shallowCopyToks ++ bodyToks ++ returnNoneToks ++ [Tok.cb]))
      | .ret (some value) => do
        let valueToks ← fmt definitions fuel (.e value) >>= asToks
        .ok (.toks ([Tok.t "return", Tok.t "Value", Tok.t "::", Tok.t "from", Tok.t "("] ++
          valueToks ++ [Tok.t ")", Tok.t ";"]))
      | .ret none => .ok (.toks returnNoneToks)
      | .whileStmt test body => do
        let testToks ← fmt definitions fuel (.e test) >>= asToks
        let bodyToks ← fmt definitions fuel (.ss body) >>= asToks
        .ok (.toks ([Tok.t "while", Tok.t "("] ++ testToks ++
          [Tok.t ")", Tok.t ".", Tok.t "test", Tok.t "(", Tok.t ")", Tok.ob] ++
          bodyToks ++ [Tok.cb]))
      | .breakStmt => .ok (.toks [Tok.t "break", Tok.t ";"])
    | .ss xs =>
      match xs with
      | [] => .ok (.toks [])
      | x :: rest => do
        let first ← fmt definitions fuel (.s x) >>= asToks
        let more ← fmt definitions fuel (.ss rest) >>= asToks
        .ok (.toks (first ++ more))
    | .fbody body function_name => do
      let stmtToks ← fmt definitions fuel (.ss body) >>= asToks
      .ok (.toks (declarations function_name definitions ++ stmtToks))

/-- Entry point `format_expr`. Expressions never reach the definition
map, so it is passed empty. -/
def format_expr (fuel : Nat) (e : Expr) : Except String (List Tok) :=
  fmt [] fuel (.e e) >>= asToks

/-- Entry point `format_statement`. -/
def format_statement (fuel : Nat) (s : Statement) (definitions : Defs) :
    Except String (List Tok) :=
  fmt definitions fuel (.s s) >>= asToks

/-- Entry point `generate_function_body`. -/
def generate_function_body (fuel : Nat) (body : List Statement)
    (function_name : String) (definitions : Defs) : Except String (List Tok) :=
  fmt definitions fuel (.fbody body function_name) >>= asToks

/-- Entry point `generate_code`: the top-level body wrapped in
`fn main() { ... }`. -/
def generate_code (fuel : Nat) (statements : List Statement)
    (definitions : Defs) : Except String (List Tok) := do
  let body ← generate_function_body fuel statements "" definitions
  .ok ([Tok.t "fn", Tok.t "main", Tok.t "(", Tok.t ")", Tok.ob] ++ body ++ [Tok.cb])

/-! ## Runtime object model (optpy-std/src/object.rs)

The other runtime variant splits bindings from values: an `Object` is
either a `Ref` (a handle to a shared value cell, representing a variable
binding) or a `Value` (an owned, transient value). `RVal` is the plain
value tree it wraps; cell contents are read through a `store` standing
for the `Rc<UnsafeRefCell<Value>>` cells. The `map_1_1`/`map_2_1`
combinators mirror the like-named functions: they read each operand
through its cell if needed, apply the value-level operation, and wrap
the result as `Object::Value`. -/

inductive RVal where
  | nil
  | int (n : Int)
  | bool (b : Bool)
  | str (s : String)
  | list (elems : List RVal)

inductive Object where
  | ref (cell : Nat)
  | value (v : RVal)

def Object.deref (store : List RVal) : Object → RVal
  | .ref a => store.getD a .nil
  | .value v => v

/-- Discriminator: `Object::Value` is a transient, `Object::Ref` is a
variable binding. -/
def Object.isTransient : Object → Bool
  | .value _ => true
  | .ref _ => false

/-- One-operand combinator `map_1_1`: `Object::Value(f(&value))`. -/
def map_1_1 (store : List RVal) (f : RVal → RVal) (obj : Object) : Object :=
  .value (f (obj.deref store))

/-- Two-operand combinator `map_2_1`: `Object::Value(f(&l, &r))`. -/
def map_2_1 (store : List RVal) (f : RVal → RVal → RVal)
    (obj1 obj2 : Object) : Object :=
  .value (f (obj1.deref store) (obj2.deref store))

/-- Modelled from the spec: the value-level operations live in the
runtime's value module, which is not under src/. Section 4.4 defines
them per concrete value pair with mismatches aborting; the abort is
modelled as a `nil` result, which no claim inspects. -/
def RVal.addV (l r : RVal) : RVal :=
  match l, r with
  | .int a, .int b => .int (a + b)
  | .str a, .str b => .str (a ++ b)
  | _, _ => .nil

/-- Modelled from the spec: integer subtraction per §4.4. -/
def RVal.subV (l r : RVal) : RVal :=
  match l, r with
  | .int a, .int b => .int (a - b)
  | _, _ => .nil

/-- Modelled from the spec: integer multiplication per §4.4. -/
def RVal.mulV (l r : RVal) : RVal :=
  match l, r with
  | .int a, .int b => .int (a * b)
  | _, _ => .nil

/-- Modelled from the spec: ordered comparison per §4.4. -/
def RVal.ltV (l r : RVal) : RVal :=
  match l, r with
  | .int a, .int b => .bool (a < b)
  | _, _ => .nil

/-- Modelled from the spec: unary minus per §4.4. -/
def RVal.unarySubV (v : RVal) : RVal :=
  match v with
  | .int a => .int (-a)
  | _ => .nil

/-- Modelled from the spec: `pop` returns the last element's value
(§6 built-ins); the in-place removal happens through the receiver's
interior mutability and is modelled by the heap semantics above. -/
def RVal.popV (v : RVal) : RVal :=
  match v with
  | .list l => (l.getLast?).getD .nil
  | _ => .nil

/-- Modelled from the spec: `split` on whitespace (§6 built-ins). -/
def RVal.splitV (v : RVal) : RVal :=
  match v with
  | .str s => .list (((s.splitOn " ").filter fun w => w ≠ "").map RVal.str)
  | _ => .nil

/-- Modelled from the spec: `strip` trims surrounding whitespace (§6
built-ins). -/
def RVal.stripV (v : RVal) : RVal :=
  match v with
  | .str s => .str s.trim
  | _ => .nil

/-- Modelled from the spec: shallow copy per §4.4 — in this tree view an
element-wise copy of the outer container. -/
def RVal.shallowCopyV (v : RVal) : RVal := v

/-- Modelled from the spec: `index_value` yields an independent value
copy of the element at the key (§4.4). -/
def RVal.indexValueV (v idx : RVal) : RVal :=
  match v, idx with
  | .list l, .int i => if 0 ≤ i then l.getD i.toNat .nil else .nil
  | _, _ => .nil

/-- Generated by `impl_map_2_1!(__add)` in object.rs. -/
def Object.addO (store : List RVal) (o1 o2 : Object) : Object :=
  map_2_1 store RVal.addV o1 o2

/-- Generated by `impl_map_2_1!(__sub)` in object.rs. -/
def Object.subO (store : List RVal) (o1 o2 : Object) : Object :=
  map_2_1 store RVal.subV o1 o2

/-- Generated by `impl_map_2_1!(__mul)` in object.rs. -/
def Object.mulO (store : List RVal) (o1 o2 : Object) : Object :=
  map_2_1 store RVal.mulV o1 o2

/-- Generated by `impl_map_2_1!(__lt)` in object.rs. -/
def Object.ltO (store : List RVal) (o1 o2 : Object) : Object :=
  map_2_1 store RVal.ltV o1 o2

/-- Generated by `impl_map_1_1!(__unary_sub)` in object.rs. -/
def Object.unarySubO (store : List RVal) (o : Object) : Object :=
  map_1_1 store RVal.unarySubV o

/-- Generated by `impl_map_1_1!(pop)` in object.rs. -/
def Object.popO (store : List RVal) (o : Object) : Object :=
  map_1_1 store RVal.popV o

/-- Generated by `impl_map_1_1!(split)` in object.rs. -/
def Object.splitO (store : List RVal) (o : Object) : Object :=
  map_1_1 store RVal.splitV o

/-- Generated by `impl_map_1_1!(strip)` in object.rs. -/
def Object.stripO (store : List RVal) (o : Object) : Object :=
  map_1_1 store RVal.stripV o

/-- Generated by `impl_map_1_1!(__shallow_copy)` in object.rs. -/
def Object.shallowCopyO (store : List RVal) (o : Object) : Object :=
  map_1_1 store RVal.shallowCopyV o

/-- The `Object::index_value` method of object.rs: reads both operands
through their cells and wraps the value-level result as
`Object::Value`. -/
def Object.indexValueO (store : List RVal) (o idx : Object) : Object :=
  .value (RVal.indexValueV (o.deref store) (idx.deref store))

/-! ## Concrete programs used to settle the claims -/

/-- The callee of the aliasing law: `def f(arr): arr[0] = 200; arr = []`
— it mutates an index of its parameter, then rebinds the parameter
name. -/
def c1MutateRebind : String × (List String × List Statement) :=
  ("f", (["arr"],
    [ .assign (.index (.variableName "arr") (.constantNumber (.int "0")))
        (.constantNumber (.int "200")),
      .assign (.variableName "arr") (.list []) ]))

/-- A callee that only rebinds its parameter: `def g(arr): arr = []`. -/
def c1RebindOnly : String × (List String × List Statement) :=
  ("g", (["arr"], [.assign (.variableName "arr") (.list [])]))

/-- Caller state for the aliasing law: `arr = [v]` — the binding holds
list handle 0 whose one element cell holds `v`. -/
def c1St (v : Value) : St := ⟨[("arr", .list 0)], ⟨[v], [[0]]⟩, []⟩

/-- The call `f(arr)` as a one-statement program. -/
def callOn (fname : String) : List Statement :=
  [.expression (.callFunction fname [.variableName "arr"])]

/-- Rendered temporary name for a loop at row 1, column 9. -/
def c3Tmp : String := "__tmp_variable_for_for_loop_1_9"

/-- Raw loop `for x in xs: acc.append(x)` with the iterable at
row 1, column 9. -/
def c3Raw : RawStatement :=
  .forStmt (.ident "x") ⟨⟨1, 9⟩, .ident "xs"⟩
    [.expression (.methodR (.ident "acc") "append" [.ident "x"])]

/-- The desugared form of `c3Raw`. -/
def c3Desugared : List Statement :=
  [ .assign (.variableName c3Tmp) (.callFunction "list" [.variableName "xs"]),
    .expression (.callMethod (.variableName c3Tmp) "reverse" []),
    .whileStmt
      (.boolOperation .andOp [
        .compare (.callFunction "len" [.variableName c3Tmp])
          (.constantNumber (.int "0")) .greater])
      [ .assign (.variableName "x") (.callMethod (.variableName c3Tmp) "pop" []),
        .expression (.callMethod (.variableName "acc") "append" [.variableName "x"]) ] ]

/-- Loop-order state: `xs = [p, q, r]`, `acc = []`, with the loop
variable and the temporary pre-declared to none. -/
def c3St (p q r : Value) : St :=
  ⟨[("xs", .list 0), ("acc", .list 1), ("x", .nil), (c3Tmp, .nil)],
   ⟨[p, q, r], [[0, 1, 2], []]⟩, []⟩

/-- Tuple target `a, b`. -/
def c5Raw : RawExpr := .tuple [.ident "a", .ident "b"]

/-- The desugared form of `a, b = xs`. -/
def c5Desugared : List Statement :=
  [ .assign (.variableName "__tmp_for_tuple") (.variableName "xs"),
    .assign (.variableName "a")
      (.index (.variableName "__tmp_for_tuple") (.constantNumber (.int "0"))),
    .assign (.variableName "b")
      (.index (.variableName "__tmp_for_tuple") (.constantNumber (.int "1"))) ]

/-- Unpacking state: `xs = [v0, v1]` with targets pre-declared. -/
def c5St (v0 v1 : Value) : St :=
  ⟨[("xs", .list 0), ("a", .nil), ("b", .nil), ("__tmp_for_tuple", .nil)],
   ⟨[v0, v1], [[0, 1]]⟩, []⟩

/-- Nested tuple target `a, (b, c)`. -/
def c6Target : RawExpr := .tuple [.ident "a", .tuple [.ident "b", .ident "c"]]

/-- What the desugarer actually produces for `a, (b, c) = xs`: the outer
level is unpacked and the nested tuple survives as an assignment
target. -/
def c6Desugared : List Statement :=
  [ .assign (.variableName "__tmp_for_tuple") (.variableName "xs"),
    .assign (.variableName "a")
      (.index (.variableName "__tmp_for_tuple") (.constantNumber (.int "0"))),
    .assign (.tuple [.variableName "b", .variableName "c"])
      (.index (.variableName "__tmp_for_tuple") (.constantNumber (.int "1"))) ]

/-- A side-effecting index: `def f(): print("f"); return 0`. -/
def c7F : String × (List String × List Statement) :=
  ("f", ([],
    [ .expression (.callFunction "print__macro__" [.constantString "f"]),
      .ret (some (.constantNumber (.int "0"))) ]))

/-- Raw augmented-assignment target `a[f()]`. -/
def c7RawTarget : RawExpr := .indexR (.ident "a") (.callR "f" [])

/-- The desugared `a[f()] += 1`, with the target duplicated. -/
def c7Desugared : Statement :=
  .assign (.index (.variableName "a") (.callFunction "f" []))
    (.binaryOperation (.index (.variableName "a") (.callFunction "f" []))
      (.constantNumber (.int "1")) .add)

/-- State for the double-evaluation run: `a = [10]`. -/
def c7St : St := ⟨[("a", .list 0)], ⟨[.int 10], [[0]]⟩, []⟩

/-! ## Helper lemmas -/

theorem digitChar_toNat (d : Nat) (h : d < 10) : (digitChar d).toNat = 48 + d := by
  interval_cases d <;> rfl

theorem natChars_digit_range (n : Nat) :
    ∀ c ∈ natChars n, 48 ≤ c.toNat ∧ c.toNat ≤ 57 := by
  induction n using Nat.strong_induction_on with
  | _ n ih =>
    rw [natChars]
    by_cases h : n < 10
    · simp only [if_pos h, List.mem_singleton]
      rintro c rfl
      rw [digitChar_toNat n h]
      omega
    · simp only [if_neg h]
      intro c hc
      rcases List.mem_append.1 hc with h1 | h1
      · exact ih _ (Nat.div_lt_self (by omega) (by omega)) c h1
      · have hm : n % 10 < 10 := Nat.mod_lt _ (by omega)
        simp only [List.mem_singleton] at h1
        subst h1
        rw [digitChar_toNat _ hm]
        omega

theorem natChars_ne_underscore (n : Nat) : ∀ c ∈ natChars n, c ≠ '_' := by
  intro c hc he
  have := natChars_digit_range n c hc
  subst he
  simp at this

theorem natChars_foldl (n : Nat) : ∀ acc : Nat,
    (natChars n).foldl (fun a c => 10 * a + (c.toNat - 48)) acc =
      acc * 10 ^ (natChars n).length + n := by
  induction n using Nat.strong_induction_on with
  | _ n ih =>
    intro acc
    rw [natChars]
    by_cases h : n < 10
    · simp only [if_pos h, List.foldl_cons, List.foldl_nil, List.length_singleton]
      rw [digitChar_toNat n h, pow_one]
      omega
    · simp only [if_neg h, List.foldl_append, List.length_append, List.foldl_cons,
        List.foldl_nil, List.length_singleton]
      rw [ih (n / 10) (Nat.div_lt_self (by omega) (by omega)) acc]
      have hm : n % 10 < 10 := Nat.mod_lt _ (by omega)
      rw [digitChar_toNat _ hm, pow_succ]
      have h1 : 10 * (acc * 10 ^ (natChars (n / 10)).length + n / 10)
          = acc * (10 ^ (natChars (n / 10)).length * 10) + 10 * (n / 10) := by ring
      rw [h1]
      omega

theorem natChars_inj {m n : Nat} (h : natChars m = natChars n) : m = n := by
  have hm := natChars_foldl m 0
  have hn := natChars_foldl n 0
  rw [h] at hm
  simp at hm hn
  omega

theorem append_underscore_inj (a : List Char) : ∀ (c b d : List Char),
    (∀ x ∈ a, x ≠ '_') → (∀ x ∈ c, x ≠ '_') →
    a ++ '_' :: b = c ++ '_' :: d → a = c ∧ b = d := by
  induction a with
  | nil =>
    intro c b d _ hc h
    cases c with
    | nil => simpa using h
    | cons y c' =>
      simp only [List.nil_append, List.cons_append, List.cons.injEq] at h
      exact absurd h.1.symm (hc y (by simp))
  | cons x a' ih =>
    intro c b d ha hc h
    cases c with
    | nil =>
      simp only [List.cons_append, List.nil_append, List.cons.injEq] at h
      exact absurd h.1 (ha x (by simp))
    | cons y c' =>
      simp only [List.cons_append, List.cons.injEq] at h
      obtain ⟨hxy, hrest⟩ := h
      obtain ⟨h1, h2⟩ := ih c' b d (fun z hz => ha z (by simp [hz]))
        (fun z hz => hc z (by simp [hz])) hrest
      exact ⟨by rw [hxy, h1], h2⟩

theorem tmpVariableForForLoop_inj {l1 l2 : Location}
    (h : tmpVariableForForLoop l1 = tmpVariableForForLoop l2) : l1 = l2 := by
  obtain ⟨r1, c1⟩ := l1
  obtain ⟨r2, c2⟩ := l2
  unfold tmpVariableForForLoop at h
  have hd := congrArg String.data h
  simp only [String.data_append, List.append_assoc] at hd
  have hd2 := List.append_cancel_left hd
  have hform : ∀ r c : Nat,
      (natToString r).data ++ ("_".data ++ (natToString c).data) =
        natChars r ++ '_' :: natChars c := by
    intro r c
    rfl
  rw [hform r1 c1, hform r2 c2] at hd2
  obtain ⟨hr, hc⟩ := append_underscore_inj (natChars r1) (natChars r2)
    (natChars c1) (natChars c2)
    (natChars_ne_underscore r1) (natChars_ne_underscore r2) hd2
  simp only [Location.mk.injEq]
  exact ⟨natChars_inj hr, natChars_inj hc⟩

theorem mem_commaJoin : ∀ (xs : List (List Tok)) (tk : Tok),
    tk ∈ commaJoin xs → tk = Tok.t "," ∨ ∃ x ∈ xs, tk ∈ x := by
  intro xs
  induction xs with
  | nil => simp [commaJoin]
  | cons x rest ih =>
    intro tk h
    cases rest with
    | nil =>
      simp only [commaJoin] at h
      exact Or.inr ⟨x, by simp, h⟩
    | cons y t =>
      have hcj : commaJoin (x :: y :: t) = x ++ [Tok.t ","] ++ commaJoin (y :: t) := rfl
      rw [hcj] at h
      simp only [List.mem_append, List.mem_singleton] at h
      rcases h with (h | h) | h
      · exact Or.inr ⟨x, by simp, h⟩
      · exact Or.inl h
      · rcases ih tk h with h1 | ⟨z, hz, hmem⟩
        · exact Or.inl h1
        · exact Or.inr ⟨z, by simp [hz], hmem⟩

theorem shallow_copy_not_mem_callSite (name : String) (argToks : List (List Tok))
    (hn : name ≠ "__shallow_copy")
    (ha : ∀ a ∈ argToks, Tok.t "__shallow_copy" ∉ a) :
    Tok.t "__shallow_copy" ∉ callSite name argToks := by
  intro h
  simp only [callSite, List.mem_cons, List.mem_append, List.mem_singleton,
    Tok.t.injEq] at h
  rcases h with (h | h | h) | h | h
  · exact hn h.symm
  · exact absurd h (by decide)
  · unfold callArgs at h
    rcases mem_commaJoin _ _ h with h1 | ⟨x, hx, hmem⟩
    · exact absurd h1 (by decide)
    · obtain ⟨a, hamem, rfl⟩ := List.mem_map.1 hx
      rcases List.mem_cons.1 hmem with h2 | h2
      · exact absurd h2 (by decide)
      · exact ha a hamem h2
  · exact absurd h (by decide)
  · simp at h

theorem Expr_parse_tuple (es : List RawExpr) :
    Expr.parse (.tuple es) = .tuple (es.map Expr.parse) := by
  simp only [Expr.parse, List.attach_map_coe]

theorem Expr_parse_call (n : String) (args : List RawExpr) :
    Expr.parse (.callR n args) = .callFunction n (args.map Expr.parse) := by
  simp only [Expr.parse, List.attach_map_coe]

theorem Expr_parse_method (v : RawExpr) (n : String) (args : List RawExpr) :
    Expr.parse (.methodR v n args) =
      .callMethod (Expr.parse v) n (args.map Expr.parse) := by
  simp only [Expr.parse, List.attach_map_coe]

theorem exceptBind_ok {ε α β : Type} (a : α) (f : α → Except ε β) :
    (Except.ok a >>= f : Except ε β) = f a := rfl

theorem natToString_small (n : Nat) (h : n < 10) : natToString n = ⟨[digitChar n]⟩ := by
  unfold natToString
  rw [natChars, if_pos h]

theorem natToString_zero : natToString 0 = "0" := by
  rw [natToString_small 0 (by omega)]
  rfl

theorem natToString_one : natToString 1 = "1" := by
  rw [natToString_small 1 (by omega)]
  rfl

theorem natToString_nine : natToString 9 = "9" := by
  rw [natToString_small 9 (by omega)]
  rfl

theorem c3Tmp_rendered : tmpVariableForForLoop ⟨1, 9⟩ = c3Tmp := by
  unfold tmpVariableForForLoop c3Tmp
  rw [natToString_one, natToString_nine]
  rfl

/-! ## Claim theorems -/

/-- C1: calling a user-defined function with a container-valued variable,
an assignment into an index of the parameter inside the callee is visible
through the caller's variable after the call, while rebinding the
parameter name inside the callee leaves the caller's variable unchanged;
in particular `def f(arr): arr[0] = 200` called with `arr = [v]` yields
`arr[0] == 200` in the caller, for every initial element value `v`. -/
theorem c1_argument_aliasing : ∀ v : Value,
    execStmts 50 [c1MutateRebind] (c1St v) (callOn "f") =
      .ok (⟨[("arr", .list 0)], ⟨[.int 200], [[0], [0], []]⟩, []⟩, .next) ∧
    evalExpr 10 [] ⟨[("arr", .list 0)], ⟨[.int 200], [[0], [0], []]⟩, []⟩
        (.index (.variableName "arr") (.constantNumber (.int "0"))) =
      .ok (⟨[("arr", .list 0)], ⟨[.int 200], [[0], [0], []]⟩, []⟩, .int 200) ∧
    execStmts 50 [c1RebindOnly] (c1St v) (callOn "g") =
      .ok (⟨[("arr", .list 0)], ⟨[v], [[0], [0], []]⟩, []⟩, .next) := by
  intro v
  exact ⟨rfl, rfl, rfl⟩

/-- C4: in the emitted short-circuit chain
`Value::from(c1.test() && c2.test() && ...)`, operands after the first
are not evaluated once the result is determined: `False and g()`
evaluates to false and `True or g()` to true with the state — including
the output log — unchanged, for any expression `g()` whatsoever. -/
theorem c4_short_circuit :
    ∀ (fuel : Nat) (fns : Funcs) (st : St) (g : Expr) (rest : List Expr),
      evalExpr (fuel + 3) fns st
          (.boolOperation .andOp (.constantBoolean false :: g :: rest)) =
        .ok (st, .bool false) ∧
      evalExpr (fuel + 3) fns st
          (.boolOperation .orOp (.constantBoolean true :: g :: rest)) =
        .ok (st, .bool true) := by
  intro fuel fns st g rest
  exact ⟨rfl, rfl⟩

/-- C5: a single-level tuple-target assignment `a, b, … = expr` desugars
to `__tmp_for_tuple = expr` followed by one indexed assignment per
target in order, and running the desugared `a, b = xs` with
`xs = [v0, v1]` binds `a` to `v0` and `b` to `v1`, for all values. -/
theorem c5_tuple_target_assignment :
    (∀ (elems : List RawExpr) (value : Expr),
      parse_assignment (.tuple elems) value =
        Statement.assign (.variableName "__tmp_for_tuple") value ::
          (elems.enum.map fun p =>
            Statement.assign (Expr.parse p.2)
              (.index (.variableName "__tmp_for_tuple")
                (.constantNumber (.int (natToString p.1)))))) ∧
    parse_assignment c5Raw (Expr.parse (.ident "xs")) = c5Desugared ∧
    (∀ v0 v1 : Value,
      execStmts 50 [] (c5St v0 v1) c5Desugared =
        .ok (⟨[("xs", .list 0), ("a", v0), ("b", v1), ("__tmp_for_tuple", .list 0)],
          ⟨[v0, v1], [[0, 1]]⟩, []⟩, .next)) := by
  refine ⟨fun elems value => rfl, ?_, fun v0 v1 => rfl⟩
  simp [parse_assignment, c5Raw, c5Desugared, Expr.parse, List.enum,
    natToString_zero, natToString_one]

/-- C3: every `for target in iter: body` desugars into exactly three
primitive statements — a temporary assigned `list(iter)`, a `reverse()`
call on the temporary, and a while loop testing `len(tmp) > 0` whose
body first assigns `tmp.pop()` to the target and then runs the original
body; the temporary's name is injective in the iterable's source
position; and the desugared loop runs the body on the elements in
forward order: `for x in [p, q, r]: acc.append(x)` leaves
`acc = [p, q, r]`. -/
theorem c3_for_loop_desugaring :
    (∀ (target : RawExpr) (iter : LocatedExpr) (body : List RawStatement)
       (bodyStmts : List Statement),
      parse_statements body = .ok bodyStmts →
      Statement.parse (.forStmt target iter body) =
        .ok [
          .assign (.variableName (tmpVariableForForLoop iter.location))
            (.callFunction "list" [Expr.parse iter.node]),
          .expression
            (.callMethod (.variableName (tmpVariableForForLoop iter.location))
              "reverse" []),
          .whileStmt
            (.boolOperation .andOp [
              .compare
                (.callFunction "len"
                  [.variableName (tmpVariableForForLoop iter.location)])
                (.constantNumber (.int "0")) .greater])
            (parse_assignment target
              (.callMethod (.variableName (tmpVariableForForLoop iter.location))
                "pop" []) ++ bodyStmts)]) ∧
    (∀ l1 l2 : Location,
      tmpVariableForForLoop l1 = tmpVariableForForLoop l2 → l1 = l2) ∧
    Statement.parse c3Raw = .ok c3Desugared ∧
    (∀ p q r : Value,
      execStmts 100 [] (c3St p q r) c3Desugared =
        .ok (⟨[("xs", .list 0), ("acc", .list 1), ("x", r), (c3Tmp, .list 2)],
          ⟨[p, q, r, p, q, r], [[0, 1, 2], [3, 4, 5], []]⟩, []⟩, .next) ∧
      ((⟨[p, q, r, p, q, r], [[0, 1, 2], [3, 4, 5], []]⟩ : Heap).getList 1).map
        (⟨[p, q, r, p, q, r], [[0, 1, 2], [3, 4, 5], []]⟩ : Heap).getCell =
        [p, q, r]) := by
  refine ⟨?_, fun l1 l2 h => tmpVariableForForLoop_inj h, ?_, fun p q r => ⟨rfl, rfl⟩⟩
  · intro target iter body bodyStmts hbody
    simp only [Statement.parse, hbody]
    rfl
  · have hb : parse_statements
        [RawStatement.expression (.methodR (.ident "acc") "append" [.ident "x"])] =
        .ok [Statement.expression
          (.callMethod (.variableName "acc") "append" [.variableName "x"])] := by
      simp only [parse_statements, Statement.parse, Expr_parse_method, Expr.parse,
        List.map_cons, List.map_nil]
      rfl
    simp only [c3Raw, c3Desugared, Statement.parse, hb, parse_assignment, Expr.parse,
      c3Tmp_rendered]
    rfl

/-- C7: every augmented assignment `x op= y` desugars to
`x = x op y` with the target sub-expression duplicated, and a
side-effecting target is evaluated twice: running the desugared
`a[f()] += 1`, where `f` prints and returns 0, prints twice. -/
theorem c7_aug_assign_double_evaluation :
    (∀ (target : RawExpr) (op : BinaryOperator) (value : RawExpr),
      Statement.parse (.augAssign target op value) =
        .ok [.assign (Expr.parse target)
          (.binaryOperation (Expr.parse target) (Expr.parse value) op)]) ∧
    Statement.parse (.augAssign c7RawTarget .add (.num "1")) = .ok [c7Desugared] ∧
    execStmts 50 [c7F] c7St [c7Desugared] =
      .ok (⟨[("a", .list 0)], ⟨[.int 11], [[0]]⟩, [.str "f", .str "f"]⟩, .next) := by
  refine ⟨?_, ?_, rfl⟩
  · intro target op value
    simp [Statement.parse]
  · simp [c7RawTarget, c7Desugared, Statement.parse, Expr.parse, Expr_parse_call]

/-- C9: every result-producing runtime operation on Objects — the
`map_1_1`/`map_2_1` wrappers and with them binary arithmetic,
comparison, unary operations, `index_value`, `pop`, `split`, `strip`,
and shallow copy — returns a Transient (`Object::Value`), never a
`Ref`; a reference can thus only originate from a variable binding. -/
theorem c9_results_are_transient :
    ∀ (store : List RVal) (f : RVal → RVal) (g : RVal → RVal → RVal)
      (o o2 i : Object),
      (map_1_1 store f o).isTransient = true ∧
      (map_2_1 store g o o2).isTransient = true ∧
      (Object.indexValueO store o i).isTransient = true ∧
      (Object.addO store o o2).isTransient = true ∧
      (Object.subO store o o2).isTransient = true ∧
      (Object.mulO store o o2).isTransient = true ∧
      (Object.ltO store o o2).isTransient = true ∧
      (Object.unarySubO store o).isTransient = true ∧
      (Object.popO store o).isTransient = true ∧
      (Object.splitO store o).isTransient = true ∧
      (Object.stripO store o).isTransient = true ∧
      (Object.shallowCopyO store o).isTransient = true := by
  intro store f g o o2 i
  exact ⟨rfl, rfl, rfl, rfl, rfl, rfl, rfl, rfl, rfl, rfl, rfl, rfl⟩

/-- Witness for C3 at a concrete loop site: an empty-body loop at
row 2, column 4, and the name-injectivity implication at equal
locations. -/
theorem c3_for_loop_desugaring_witness :
    Statement.parse (.forStmt (.ident "y") ⟨⟨2, 4⟩, .ident "zs"⟩ []) =
      .ok [
        .assign (.variableName (tmpVariableForForLoop ⟨2, 4⟩))
          (.callFunction "list" [Expr.parse (.ident "zs")]),
        .expression
          (.callMethod (.variableName (tmpVariableForForLoop ⟨2, 4⟩)) "reverse" []),
        .whileStmt
          (.boolOperation .andOp [
            .compare
              (.callFunction "len" [.variableName (tmpVariableForForLoop ⟨2, 4⟩)])
              (.constantNumber (.int "0")) .greater])
          (parse_assignment (.ident "y")
            (.callMethod (.variableName (tmpVariableForForLoop ⟨2, 4⟩)) "pop" []) ++ [])] ∧
    (⟨1, 9⟩ : Location) = ⟨1, 9⟩ := by
  constructor
  · exact c3_for_loop_desugaring.1 (.ident "y") ⟨⟨2, 4⟩, .ident "zs"⟩ [] []
      (by simp [parse_statements])
  · exact c3_for_loop_desugaring.2.1 ⟨1, 9⟩ ⟨1, 9⟩ rfl

/-- C8: for every scope, the generated body begins with one
`let mut name = Value::none();` declaration per name of the scope's
definition set, emitted in the set's ascending — lexicographic —
iteration order, before any statement of the body. -/
theorem c8_predeclarations_first :
    ∀ (fuel : Nat) (definitions : Defs) (function_name : String)
      (names : List String) (body : List Statement) (stmtToks : List Tok),
      definitions.lookup function_name = some names →
      List.Chain' (· < ·) names →
      fmt definitions fuel (.ss body) = .ok (.toks stmtToks) →
      generate_function_body (fuel + 1) body function_name definitions =
        .ok (names.flatMap declTok ++ stmtToks) := by
  intro fuel definitions function_name names body stmtToks hlook _hsorted hbody
  simp only [generate_function_body, fmt, hbody, declarations, hlook]
  rfl

/-- Witness for C8: the scope `g` with definition set `{a, b}` and a
one-statement body. -/
theorem c8_predeclarations_first_witness :
    generate_function_body 6 [Statement.breakStmt] "g" [("g", ["a", "b"])] =
      .ok (["a", "b"].flatMap declTok ++ [Tok.t "break", Tok.t ";"]) :=
  c8_predeclarations_first 5 [("g", ["a", "b"])] "g" ["a", "b"]
    [Statement.breakStmt] [Tok.t "break", Tok.t ";"] rfl
    (List.chain'_cons.2 ⟨by rw [String.lt_iff_toList_lt]; decide,
      List.chain'_singleton _⟩) rfl

/-- C10: every emitted user-defined function body ends with an
unconditional `return Value::none();` just before the closing brace,
and a call whose body finishes executing without reaching a `Return`
statement evaluates to the none sentinel. -/
theorem c10_fallback_return_none :
    (∀ (fuel : Nat) (definitions : Defs) (name : String) (args : List String)
       (body : List Statement) (bodyToks : List Tok),
      fmt definitions fuel (.fbody body name) = .ok (.toks bodyToks) →
      format_statement (fuel + 1) (.func name args body) definitions =
        .ok ([Tok.t "fn", Tok.t name, Tok.t "("] ++
          commaJoin (args.map fun a => [Tok.t a, Tok.t ":", Tok.t "&", Tok.t "Value"]) ++
          [Tok.t ")", Tok.t "->", Tok.t "Value", Tok.ob] ++
          args.flatMap shallowCopyToks ++ bodyToks ++ returnNoneToks ++
          [Tok.cb])) ∧
    (∀ (fuel : Nat) (fns : Funcs) (st st1 st2 : St) (name : String)
       (args : List Expr) (params : List String) (body : List Statement)
       (vs copied : List Value) (heap1 : Heap),
      fns.lookup name = some (params, body) →
      name ≠ "print__macro__" → name ≠ "list" → name ≠ "len" →
      interp fuel fns st (.exprList args) = .ok (st1, .vals vs) →
      params.length = vs.length →
      copyArgs st1.heap vs = (heap1, copied) →
      interp fuel fns ⟨params.zip copied, heap1, st1.out⟩ (.stmtList body) =
        .ok (st2, .flow .next) →
      interp (fuel + 1) fns st (.expr (.callFunction name args)) =
        .ok (⟨st1.env, st2.heap, st2.out⟩, .val .nil)) := by
  constructor
  · intro fuel definitions name args body bodyToks hbody
    simp only [format_statement, fmt, hbody, exceptBind_ok, asToks]
  · intro fuel fns st st1 st2 name args params body vs copied heap1
      hlook hp hl hlen hargs harity hcopy hbodyrun
    simp only [interp, hp, hl, hlen, hlook, hargs, exceptBind_ok, asVals, asFlow,
      harity, hcopy, hbodyrun, if_false, ite_false, ite_true, if_true]

/-- Witness for C10: the function `fn f(arr)` with body `return None`
for the emission half, and a call of a function whose body is a plain
assignment (no `Return`) evaluating to none for the semantic half. -/
theorem c10_fallback_return_none_witness :
    format_statement 6 (.func "f" ["arr"] [.ret none]) [] =
      .ok ([Tok.t "fn", Tok.t "f", Tok.t "("] ++
        commaJoin (["arr"].map fun a => [Tok.t a, Tok.t ":", Tok.t "&", Tok.t "Value"]) ++
        [Tok.t ")", Tok.t "->", Tok.t "Value", Tok.ob] ++
        ["arr"].flatMap shallowCopyToks ++ returnNoneToks ++ returnNoneToks ++
        [Tok.cb]) ∧
    interp 11 [("h", (["y"], [.assign (.variableName "y") (.constantNumber (.int "1"))]))]
        ⟨[], ⟨[], []⟩, []⟩ (.expr (.callFunction "h" [.constantNumber (.int "5")])) =
      .ok (⟨[], ⟨[], []⟩, []⟩, .val .nil) := by
  constructor
  · exact c10_fallback_return_none.1 5 [] "f" ["arr"] [.ret none] returnNoneToks rfl
  · exact c10_fallback_return_none.2 10
      [("h", (["y"], [.assign (.variableName "y") (.constantNumber (.int "1"))]))]
      ⟨[], ⟨[], []⟩, []⟩ ⟨[], ⟨[], []⟩, []⟩ ⟨[("y", .int 1)], ⟨[], []⟩, []⟩
      "h" [.constantNumber (.int "5")] ["y"] [.assign (.variableName "y") (.constantNumber (.int "1"))]
      [.int 5] [.int 5] ⟨[], []⟩
      rfl (by decide) (by decide) (by decide) rfl rfl rfl rfl

/-- Counterexample to C2 as stated: at the call site the generator
emits `f(&x)` — a plain reference, with no `__shallow_copy` token —
while the shallow copies appear inside the emitted callee, as its first
statements. -/
theorem c2_counterexample :
    format_expr 10 (.callFunction "f" [.variableName "x"]) =
      .ok [Tok.t "f", Tok.t "(", Tok.t "&", Tok.t "x", Tok.t ")"] ∧
    Tok.t "__shallow_copy" ∉
      [Tok.t "f", Tok.t "(", Tok.t "&", Tok.t "x", Tok.t ")"] ∧
    format_statement 10 (.func "f" ["x"] []) [] =
      .ok ([Tok.t "fn", Tok.t "f", Tok.t "(", Tok.t "x", Tok.t ":", Tok.t "&",
        Tok.t "Value", Tok.t ")", Tok.t "->", Tok.t "Value", Tok.ob] ++
        shallowCopyToks "x" ++ returnNoneToks ++ [Tok.cb]) := by
  exact ⟨rfl, by decide, rfl⟩

/-- C2 as amended: the shallow copy of each argument happens inside the
callee, not at the call site — call emission passes each argument as a
plain reference `name(&a1, &a2, ...)` and introduces no
`__shallow_copy` token, while the emitted callee's body starts with
`let mut p = p.__shallow_copy();` for each parameter, before the
scope's declarations and statements. -/
theorem c2_shallow_copy_inside_callee :
    (∀ (fuel : Nat) (name : String) (args : List Expr) (argToks : List (List Tok)),
      stripMacroSuffix name = none →
      fmt [] fuel (.es args) = .ok (.tokss argToks) →
      format_expr (fuel + 1) (.callFunction name args) = .ok (callSite name argToks)) ∧
    (∀ (name : String) (argToks : List (List Tok)),
      name ≠ "__shallow_copy" →
      (∀ a ∈ argToks, Tok.t "__shallow_copy" ∉ a) →
      Tok.t "__shallow_copy" ∉ callSite name argToks) ∧
    (∀ (fuel : Nat) (definitions : Defs) (name : String) (args : List String)
       (body : List Statement) (bodyToks : List Tok),
      fmt definitions fuel (.fbody body name) = .ok (.toks bodyToks) →
      ∃ sig, format_statement (fuel + 1) (.func name args body) definitions =
        .ok (sig ++ Tok.ob ::
          (args.flatMap shallowCopyToks ++ bodyToks ++ returnNoneToks ++ [Tok.cb]))) := by
  refine ⟨?_, fun name argToks => shallow_copy_not_mem_callSite name argToks, ?_⟩
  · intro fuel name args argToks hmac hargs
    simp only [format_expr, fmt, hargs, hmac]
    rfl
  · intro fuel definitions name args body bodyToks hbody
    refine ⟨[Tok.t "fn", Tok.t name, Tok.t "("] ++
      commaJoin (args.map fun a => [Tok.t a, Tok.t ":", Tok.t "&", Tok.t "Value"]) ++
      [Tok.t ")", Tok.t "->", Tok.t "Value"], ?_⟩
    simp only [format_statement, fmt, hbody, exceptBind_ok, asToks]
    simp [List.append_assoc]

/-- Witness for C2's amended statement at the concrete call `f(&x)` and
the concrete one-parameter function `f`. -/
theorem c2_shallow_copy_inside_callee_witness :
    format_expr 6 (.callFunction "f" [.variableName "x"]) =
      .ok (callSite "f" [[Tok.t "x"]]) ∧
    Tok.t "__shallow_copy" ∉ callSite "f" [[Tok.t "x"]] ∧
    (∃ sig, format_statement 6 (.func "f" ["x"] []) [] =
      .ok (sig ++ Tok.ob ::
        (["x"].flatMap shallowCopyToks ++ [] ++ returnNoneToks ++ [Tok.cb]))) := by
  refine ⟨?_, ?_, ?_⟩
  · exact c2_shallow_copy_inside_callee.1 5 "f" [.variableName "x"] [[Tok.t "x"]]
      rfl rfl
  · exact c2_shallow_copy_inside_callee.2.1 "f" [[Tok.t "x"]] (by decide)
      (by decide)
  · exact c2_shallow_copy_inside_callee.2.2 5 [] "f" ["x"] [] [] rfl

/-- C6 evaluated at the failing input: the nested tuple target
`a, (b, c) = xs` is not rejected — the desugarer lowers the outer level
and keeps the nested tuple as an assignment target, and the generator
then emits tokens for it without any diagnostic. -/
theorem c6_nested_tuple_not_rejected :
    parse_assignment c6Target (Expr.parse (.ident "xs")) = c6Desugared ∧
    ∃ ts, fmt [] 20 (.ss c6Desugared) = .ok (.toks ts) := by
  constructor
  · simp only [parse_assignment, c6Target, c6Desugared, Expr.parse, Expr_parse_tuple,
      List.enum, List.enumFrom, List.map_cons, List.map_nil, natToString_zero,
      zero_add, natToString_one]
  · exact ⟨_, rfl⟩

end Optpy
